import Mathlib

/-!
Verification of the HelixSleuth core (src/deep.py): sequence validation,
DNA-to-protein translation, mutation application and comparison statistics.
Python strings are modelled as `List Char`; the dynamically typed `change`
argument of `apply_mutation` is modelled by `PyVal`, and a Python call that
may raise a `TypeError` or fall through returning `None` is modelled by
`PyReturn`.
-/

/-- Embeds `validate_dna` (src/deep.py line 45-46):
`all(base in 'ATGC' for base in sequence)`. -/
def validate_dna (sequence : List Char) : Bool :=
  sequence.all (fun base => ['A', 'T', 'G', 'C'].contains base)

/-- Embeds the standard genetic code (NCBI translation table 1) used by the
library call `Seq(dna).translate(table=1, to_stop=True)` in `translate_dna`
(src/deep.py line 50). Stop codons map to the marker character, codons
outside the {A,T,G,C} alphabet (out of the spec's scope) map to a default. -/
def codonAA (a b c : Char) : Char :=
  match a, b, c with
  | 'T', 'T', 'T' => 'F' | 'T', 'T', 'C' => 'F' | 'T', 'T', 'A' => 'L' | 'T', 'T', 'G' => 'L'
  | 'C', 'T', 'T' => 'L' | 'C', 'T', 'C' => 'L' | 'C', 'T', 'A' => 'L' | 'C', 'T', 'G' => 'L'
  | 'A', 'T', 'T' => 'I' | 'A', 'T', 'C' => 'I' | 'A', 'T', 'A' => 'I' | 'A', 'T', 'G' => 'M'
  | 'G', 'T', 'T' => 'V' | 'G', 'T', 'C' => 'V' | 'G', 'T', 'A' => 'V' | 'G', 'T', 'G' => 'V'
  | 'T', 'C', 'T' => 'S' | 'T', 'C', 'C' => 'S' | 'T', 'C', 'A' => 'S' | 'T', 'C', 'G' => 'S'
  | 'C', 'C', 'T' => 'P' | 'C', 'C', 'C' => 'P' | 'C', 'C', 'A' => 'P' | 'C', 'C', 'G' => 'P'
  | 'A', 'C', 'T' => 'T' | 'A', 'C', 'C' => 'T' | 'A', 'C', 'A' => 'T' | 'A', 'C', 'G' => 'T'
  | 'G', 'C', 'T' => 'A' | 'G', 'C', 'C' => 'A' | 'G', 'C', 'A' => 'A' | 'G', 'C', 'G' => 'A'
  | 'T', 'A', 'T' => 'Y' | 'T', 'A', 'C' => 'Y' | 'T', 'A', 'A' => '*' | 'T', 'A', 'G' => '*'
  | 'C', 'A', 'T' => 'H' | 'C', 'A', 'C' => 'H' | 'C', 'A', 'A' => 'Q' | 'C', 'A', 'G' => 'Q'
  | 'A', 'A', 'T' => 'N' | 'A', 'A', 'C' => 'N' | 'A', 'A', 'A' => 'K' | 'A', 'A', 'G' => 'K'
  | 'G', 'A', 'T' => 'D' | 'G', 'A', 'C' => 'D' | 'G', 'A', 'A' => 'E' | 'G', 'A', 'G' => 'E'
  | 'T', 'G', 'T' => 'C' | 'T', 'G', 'C' => 'C' | 'T', 'G', 'A' => '*' | 'T', 'G', 'G' => 'W'
  | 'C', 'G', 'T' => 'R' | 'C', 'G', 'C' => 'R' | 'C', 'G', 'A' => 'R' | 'C', 'G', 'G' => 'R'
  | 'A', 'G', 'T' => 'S' | 'A', 'G', 'C' => 'S' | 'A', 'G', 'A' => 'R' | 'A', 'G', 'G' => 'R'
  | 'G', 'G', 'T' => 'G' | 'G', 'G', 'C' => 'G' | 'G', 'G', 'A' => 'G' | 'G', 'G', 'G' => 'G'
  | _, _, _ => 'X'

/-- Embeds `translate_dna` (src/deep.py line 49-50), i.e. the semantics of
`str(Seq(dna).translate(table=1, to_stop=True))`: read complete codons from
position 0, map each through table 1, halt before the first stop codon, and
silently discard a trailing partial codon of fewer than 3 symbols. -/
def translate_dna : List Char → List Char
  | a :: b :: c :: rest =>
      if codonAA a b c = '*' then [] else codonAA a b c :: translate_dna rest
  | _ => []

/-- A Python value passed as the `change` argument of `apply_mutation`:
the call sites pass a string (Point replacement base, Insertion bases) or
an int (Deletion length). -/
inductive PyVal where
  | str : List Char → PyVal
  | int : Nat → PyVal
deriving DecidableEq

/-- Outcome of a Python call: a returned value (possibly `None`, modelled
as `val none`), or a raised `TypeError` (string/int concatenation). -/
inductive PyReturn where
  | val : Option (List Char) → PyReturn
  | typeError : PyReturn
deriving DecidableEq

/-- Embeds `apply_mutation` (src/deep.py lines 52-58). Python slicing with
non-negative indices clamps at the ends exactly like `List.take`/`List.drop`;
falling through all three branches returns `None`; adding a string to an int
(mistyped `change`) raises `TypeError`. -/
def apply_mutation (seq : List Char) (mut_type : String) (pos : Nat)
    (change : PyVal) : PyReturn :=
  if mut_type = "Point" then
    match change with
    | .str c => .val (some (seq.take pos ++ c ++ seq.drop (pos + 1)))
    | .int _ => .typeError
  else if mut_type = "Insertion" then
    match change with
    | .str c => .val (some (seq.take pos ++ c ++ seq.drop pos))
    | .int _ => .typeError
  else if mut_type = "Deletion" then
    match change with
    | .int n => .val (some (seq.take pos ++ seq.drop (pos + n)))
    | .str _ => .typeError
  else
    .val none

/-- Embeds `changes` (src/deep.py line 124):
`sum(1 for a, b in zip(orig_protein, mut_protein) if a != b)`. -/
def changes (orig_protein mut_protein : List Char) : Nat :=
  ((orig_protein.zip mut_protein).filter (fun p => p.1 != p.2)).length

/-- One step of `collections.Counter` construction: increment the entry of
`c` if present, else append a fresh entry with count 1. -/
def addCount : List (Char × Nat) → Char → List (Char × Nat)
  | [], c => [(c, 1)]
  | (k, v) :: t, c => if k = c then (k, v + 1) :: t else (k, v) :: addCount t c

/-- Embeds `aa_counts = Counter(mut_protein)` (src/deep.py line 128) as an
association list from amino-acid code to occurrence count, built by a single
left-to-right pass. -/
def aa_counts (mut_protein : List Char) : List (Char × Nat) :=
  mut_protein.foldl addCount []

/-- The codons of a sequence: consecutive complete triples from position 0,
discarding a trailing partial codon. -/
def chunks3 : List Char → List (List Char)
  | a :: b :: c :: rest => [a, b, c] :: chunks3 rest
  | _ => []

/-- Amino acid of one codon given as a 3-element list. -/
def tripleAA : List Char → Char
  | [a, b, c] => codonAA a b c
  | _ => 'X'

/-- A sequence is stop-free when none of its aligned complete codons is a
stop codon. -/
def noStop : List Char → Bool
  | a :: b :: c :: rest => !(codonAA a b c = '*') && noStop rest
  | _ => true

example : validate_dna ['A', 'T', 'G'] = true := by decide
example : validate_dna ['A', 'U', 'G'] = false := by decide
example : translate_dna ['A', 'T', 'G', 'T', 'A', 'A', 'G', 'G', 'G'] = ['M'] := by decide
example : translate_dna ['A', 'T', 'G', 'C', 'G', 'T'] = ['M', 'R'] := by decide
example : apply_mutation ['A', 'T', 'G'] "Point" 0 (.str ['T'])
    = .val (some ['T', 'T', 'G']) := by decide
example : apply_mutation ['A', 'T', 'G'] "Point" 3 (.str ['C'])
    = .val (some ['A', 'T', 'G', 'C']) := by decide
example : apply_mutation ['A', 'T', 'G'] "Bogus" 0 (.str ['C']) = .val none := by decide
example : changes ['M', 'R', 'K'] ['M', 'K'] = 1 := by decide
example : aa_counts ['M', 'R', 'M'] = [('M', 2), ('R', 1)] := by decide

/-- C7: `validate_dna s` is true iff every character of `s` is one of
A, T, G, C; the empty string validates, and any string with a character
outside the alphabet fails validation. -/
theorem validate_dna_spec (s : List Char) :
    (validate_dna s = true ↔ ∀ c ∈ s, c ∈ ['A', 'T', 'G', 'C']) ∧
    validate_dna [] = true ∧
    (∀ c, c ∈ s → c ∉ ['A', 'T', 'G', 'C'] → validate_dna s = false) := by
  have hiff : validate_dna s = true ↔ ∀ c ∈ s, c ∈ ['A', 'T', 'G', 'C'] := by
    simp [validate_dna, List.all_eq_true, List.elem_iff]
  refine ⟨hiff, rfl, fun c hc hnc => ?_⟩
  cases h : validate_dna s with
  | false => rfl
  | true => exact absurd (hiff.mp h c hc) hnc

/-- Witness for C7 at the concrete string "ATG". -/
theorem validate_dna_spec_witness : validate_dna ['A', 'T', 'G'] = true :=
  (validate_dna_spec ['A', 'T', 'G']).1.mpr (by decide)

/-- C4: for a valid position `p < length s` and a validated single
replacement symbol, the Point mutation yields `s` with the symbol at `p`
replaced, and the length is unchanged. -/
theorem apply_mutation_point_spec (s : List Char) (p : Nat) (b : Char)
    (hp : p < s.length) (hb : validate_dna [b] = true) :
    apply_mutation s "Point" p (.str [b]) = .val (some (s.set p b)) ∧
    (s.set p b).length = s.length := by
  constructor
  · rw [List.set_eq_take_cons_drop b hp]
    simp [apply_mutation]
  · simp

/-- Witness for C4: point mutation at position 1 of "ATG" with base C. -/
theorem apply_mutation_point_spec_witness :
    apply_mutation ['A', 'T', 'G'] "Point" 1 (.str ['C'])
      = .val (some (['A', 'T', 'G'].set 1 'C')) ∧
    (['A', 'T', 'G'].set 1 'C').length = (['A', 'T', 'G'] : List Char).length :=
  apply_mutation_point_spec ['A', 'T', 'G'] 1 'C' (by decide) (by decide)

/-- C3: an Insertion at `p ≤ length s` of a validated `ins` splices `ins`
in immediately before `p` and grows the length by `length ins`; a Deletion
at `q < length s` of length `1 ≤ k ≤ length s - q` removes the closed-open
range [q, q+k) and shrinks the length by `k`. -/
theorem apply_mutation_ins_del_spec (s ins : List Char) (p q k : Nat)
    (hp : p ≤ s.length) (hins : validate_dna ins = true)
    (hq : q < s.length) (hk1 : 1 ≤ k) (hk2 : k ≤ s.length - q) :
    apply_mutation s "Insertion" p (.str ins)
      = .val (some (s.take p ++ ins ++ s.drop p)) ∧
    (s.take p ++ ins ++ s.drop p).length = s.length + ins.length ∧
    apply_mutation s "Deletion" q (.int k)
      = .val (some (s.take q ++ s.drop (q + k))) ∧
    (s.take q ++ s.drop (q + k)).length = s.length - k := by
  refine ⟨by simp [apply_mutation], ?_, by simp [apply_mutation], ?_⟩
  · simp only [List.length_append, List.length_take, List.length_drop]
    omega
  · simp only [List.length_append, List.length_take, List.length_drop]
    omega

/-- Witness for C3: insertion of "CC" at position 1 and deletion of
length 2 at position 1 in "ATG". -/
theorem apply_mutation_ins_del_spec_witness :
    apply_mutation ['A', 'T', 'G'] "Insertion" 1 (.str ['C', 'C'])
      = .val (some (['A', 'T', 'G'].take 1 ++ ['C', 'C'] ++ ['A', 'T', 'G'].drop 1)) ∧
    (['A', 'T', 'G'].take 1 ++ ['C', 'C'] ++ ['A', 'T', 'G'].drop 1).length
      = (['A', 'T', 'G'] : List Char).length + (['C', 'C'] : List Char).length ∧
    apply_mutation ['A', 'T', 'G'] "Deletion" 1 (.int 2)
      = .val (some (['A', 'T', 'G'].take 1 ++ ['A', 'T', 'G'].drop (1 + 2))) ∧
    (['A', 'T', 'G'].take 1 ++ ['A', 'T', 'G'].drop (1 + 2)).length
      = (['A', 'T', 'G'] : List Char).length - 2 :=
  apply_mutation_ins_del_spec ['A', 'T', 'G'] ['C', 'C'] 1 1 2
    (by decide) (by decide) (by decide) (by decide) (by decide)

/-- C5: inserting a validated sequence `ins` at `p ≤ length s` and then
deleting `length ins` symbols starting at `p` returns the original `s`. -/
theorem insertion_deletion_roundtrip (s ins : List Char) (p : Nat)
    (hp : p ≤ s.length) (hins : validate_dna ins = true) :
    apply_mutation s "Insertion" p (.str ins)
      = .val (some (s.take p ++ ins ++ s.drop p)) ∧
    apply_mutation (s.take p ++ ins ++ s.drop p) "Deletion" p (.int ins.length)
      = .val (some s) := by
  have hlen : (s.take p).length = p := by
    simp only [List.length_take]
    omega
  have htake : (s.take p ++ ins ++ s.drop p).take p = s.take p := by
    rw [List.append_assoc]
    exact List.take_left' hlen
  have hdrop : (s.take p ++ ins ++ s.drop p).drop (p + ins.length) = s.drop p := by
    have hlen2 : (s.take p ++ ins).length = p + ins.length := by
      simp [List.length_append, hlen]
    exact List.drop_left' hlen2
  refine ⟨by simp [apply_mutation], ?_⟩
  have hsplit : (s.take p ++ ins ++ s.drop p).take p
      ++ (s.take p ++ ins ++ s.drop p).drop (p + ins.length) = s := by
    rw [htake, hdrop, List.take_append_drop]
  simp only [apply_mutation, if_neg (by decide : ¬("Deletion" = "Point")),
    if_neg (by decide : ¬("Deletion" = "Insertion")), if_pos rfl]
  rw [hsplit]
  simp

/-- Witness for C5: insert "CC" at position 2 of "ATG", then delete 2
symbols at position 2, recovering "ATG". -/
theorem insertion_deletion_roundtrip_witness :
    apply_mutation ['A', 'T', 'G'] "Insertion" 2 (.str ['C', 'C'])
      = .val (some (['A', 'T', 'G'].take 2 ++ ['C', 'C'] ++ ['A', 'T', 'G'].drop 2)) ∧
    apply_mutation (['A', 'T', 'G'].take 2 ++ ['C', 'C'] ++ ['A', 'T', 'G'].drop 2)
        "Deletion" 2 (.int (['C', 'C'] : List Char).length)
      = .val (some ['A', 'T', 'G']) :=
  insertion_deletion_roundtrip ['A', 'T', 'G'] ['C', 'C'] 2 (by decide) (by decide)

/-- C10: `apply_mutation` with any kind string other than "Point",
"Insertion" or "Deletion" falls through every branch and returns None. -/
theorem apply_mutation_unknown_kind (s : List Char) (kind : String) (pos : Nat)
    (change : PyVal) (h1 : kind ≠ "Point") (h2 : kind ≠ "Insertion")
    (h3 : kind ≠ "Deletion") :
    apply_mutation s kind pos change = .val none := by
  simp [apply_mutation, h1, h2, h3]

/-- Witness for C10 at the unknown kind "Frameshift". -/
theorem apply_mutation_unknown_kind_witness :
    apply_mutation ['A', 'T', 'G'] "Frameshift" 0 (.str ['C']) = .val none :=
  apply_mutation_unknown_kind ['A', 'T', 'G'] "Frameshift" 0 (.str ['C'])
    (by decide) (by decide) (by decide)

/-- C9: `apply_mutation` never signals an error for non-negative positions
and lengths: a Point mutation at `pos ≥ length seq` returns `seq` with the
replacement appended (length `length seq + 1`), and a Deletion whose length
runs past the end returns the prefix `seq.take pos`; both are returned
values, not errors. -/
theorem apply_mutation_no_bounds_check (s : List Char) (pos n : Nat) (b : Char) :
    (s.length ≤ pos →
      apply_mutation s "Point" pos (.str [b]) = .val (some (s ++ [b])) ∧
      (s ++ [b]).length = s.length + 1) ∧
    (s.length < pos + n →
      apply_mutation s "Deletion" pos (.int n) = .val (some (s.take pos))) := by
  constructor
  · intro h
    refine ⟨?_, by simp⟩
    simp [apply_mutation, List.take_of_length_le h,
      List.drop_eq_nil_of_le (by omega : s.length ≤ pos + 1)]
  · intro h
    simp [apply_mutation, List.drop_eq_nil_of_le (by omega : s.length ≤ pos + n)]

/-- Witness for C9: a Point mutation past the end of "ATG" appends, and an
over-long Deletion truncates to the prefix. -/
theorem apply_mutation_no_bounds_check_witness :
    apply_mutation ['A', 'T', 'G'] "Point" 3 (.str ['C'])
      = .val (some (['A', 'T', 'G'] ++ ['C'])) ∧
    apply_mutation ['A', 'T', 'G'] "Deletion" 1 (.int 5)
      = .val (some (['A', 'T', 'G'].take 1)) :=
  ⟨((apply_mutation_no_bounds_check ['A', 'T', 'G'] 3 5 'C').1 (by decide)).1,
   (apply_mutation_no_bounds_check ['A', 'T', 'G'] 1 5 'C').2 (by decide)⟩

/-- C1 counterexample: the claim says a Point mutation or a Deletion at
`position = length s` must fail with an InvalidPosition error, but
`apply_mutation` raises nothing: at position 3 in the 3-long "ATG" the
Point branch returns the value "ATGC" and the Deletion branch returns the
value "ATG" — successful results, not errors. -/
theorem apply_mutation_bounds_cex :
    apply_mutation ['A', 'T', 'G'] "Point" 3 (.str ['C'])
      = .val (some ['A', 'T', 'G', 'C']) ∧
    apply_mutation ['A', 'T', 'G'] "Deletion" 3 (.int 1)
      = .val (some ['A', 'T', 'G']) := by
  decide

/-- C1 amended: the in-bounds boundary cases succeed as the claim states —
Point at `length s - 1`, Deletion with `position + length = length s`, and
Insertion at `length s` all return the expected sequences — but out-of-bounds
positions do not fail: `apply_mutation` performs no bounds checking, and at
`position = length s` the Point branch returns `s` with the replacement
appended while the Deletion branch returns `s` unchanged. -/
theorem apply_mutation_bounds_amended (s ins : List Char) (b : Char) (p k : Nat) :
    (s ≠ [] → apply_mutation s "Point" (s.length - 1) (.str [b])
        = .val (some (s.set (s.length - 1) b))) ∧
    (p + k = s.length → apply_mutation s "Deletion" p (.int k)
        = .val (some (s.take p))) ∧
    apply_mutation s "Insertion" s.length (.str ins) = .val (some (s ++ ins)) ∧
    apply_mutation s "Point" s.length (.str [b]) = .val (some (s ++ [b])) ∧
    apply_mutation s "Deletion" s.length (.int k) = .val (some s) := by
  refine ⟨?_, ?_, ?_, ?_, ?_⟩
  · intro hne
    have hp : s.length - 1 < s.length := by
      have := List.length_pos.mpr hne
      omega
    rw [List.set_eq_take_cons_drop b hp]
    simp [apply_mutation]
  · intro hpk
    simp [apply_mutation, List.drop_eq_nil_of_le (by omega : s.length ≤ p + k)]
  · simp [apply_mutation]
  · simp [apply_mutation, List.drop_eq_nil_of_le (by omega : s.length ≤ s.length + 1)]
  · simp [apply_mutation, List.drop_eq_nil_of_le (by omega : s.length ≤ s.length + k)]

/-- Witness for the amended C1 on "ATG" with position 1, length 2. -/
theorem apply_mutation_bounds_amended_witness :
    apply_mutation ['A', 'T', 'G'] "Point" 2 (.str ['C'])
      = .val (some (['A', 'T', 'G'].set 2 'C')) ∧
    apply_mutation ['A', 'T', 'G'] "Deletion" 1 (.int 2)
      = .val (some (['A', 'T', 'G'].take 1)) ∧
    apply_mutation ['A', 'T', 'G'] "Insertion" 3 (.str ['C'])
      = .val (some (['A', 'T', 'G'] ++ ['C'])) ∧
    apply_mutation ['A', 'T', 'G'] "Point" 3 (.str ['C'])
      = .val (some (['A', 'T', 'G'] ++ ['C'])) ∧
    apply_mutation ['A', 'T', 'G'] "Deletion" 3 (.int 2)
      = .val (some ['A', 'T', 'G']) := by
  have h := apply_mutation_bounds_amended ['A', 'T', 'G'] ['C'] 'C' 1 2
  exact ⟨h.1 (by decide), h.2.1 (by decide), h.2.2.1, h.2.2.2.1, h.2.2.2.2⟩

/-- A list shorter than one codon translates to nothing. -/
theorem translate_dna_short (l : List Char) (h : l.length < 3) :
    translate_dna l = [] := by
  match l with
  | [] => rfl
  | [a] => rfl
  | [a, b] => rfl
  | a :: b :: c :: r =>
    simp only [List.length_cons] at h
    omega

/-- Translation distributes over appending after a codon-aligned, stop-free
left part. -/
theorem translate_dna_append_aligned : ∀ (pre rest : List Char),
    pre.length % 3 = 0 → noStop pre = true →
    translate_dna (pre ++ rest) = translate_dna pre ++ translate_dna rest
  | [], _, _, _ => by simp [translate_dna]
  | [a], _, h3, _ => by simp at h3
  | [a, b], _, h3, _ => by simp at h3
  | a :: b :: c :: r, rest, h3, hns => by
    have h3' : r.length % 3 = 0 := by
      simp only [List.length_cons] at h3
      omega
    have hns' : codonAA a b c ≠ '*' ∧ noStop r = true := by
      simpa [noStop] using hns
    have ih := translate_dna_append_aligned r rest h3' hns'.2
    simp [translate_dna, hns'.1, ih]

/-- On a codon-aligned, stop-free input, translation is exactly the map of
the genetic code over the codons. -/
theorem translate_dna_eq_map_chunks : ∀ (pre : List Char),
    pre.length % 3 = 0 → noStop pre = true →
    translate_dna pre = (chunks3 pre).map tripleAA
  | [], _, _ => rfl
  | [a], h3, _ => by simp at h3
  | [a, b], h3, _ => by simp at h3
  | a :: b :: c :: r, h3, hns => by
    have h3' : r.length % 3 = 0 := by
      simp only [List.length_cons] at h3
      omega
    have hns' : codonAA a b c ≠ '*' ∧ noStop r = true := by
      simpa [noStop] using hns
    have ih := translate_dna_eq_map_chunks r h3' hns'.2
    simp [translate_dna, chunks3, tripleAA, hns'.1, ih]

/-- After a codon-aligned left part, a tail shorter than one codon
contributes nothing to the translation. -/
theorem translate_dna_trailing : ∀ (pre extra : List Char),
    pre.length % 3 = 0 → extra.length < 3 →
    translate_dna (pre ++ extra) = translate_dna pre
  | [], extra, _, hex => by
    simpa using translate_dna_short extra hex
  | [a], _, h3, _ => by simp at h3
  | [a, b], _, h3, _ => by simp at h3
  | a :: b :: c :: r, extra, h3, hex => by
    have h3' : r.length % 3 = 0 := by
      simp only [List.length_cons] at h3
      omega
    have ih := translate_dna_trailing r extra h3' hex
    by_cases hc : codonAA a b c = '*' <;> simp [translate_dna, hc, ih]

/-- C2: translation of a sequence whose first codon-aligned stop codon
follows a stop-free aligned part `pre` equals the translation of `pre`
alone, which is exactly the amino acids of the codons strictly before the
stop; in particular translate("ATGTAAGGG") = translate("ATG"). -/
theorem translate_stops_at_first_stop (pre rest : List Char) (x y z : Char)
    (h3 : pre.length % 3 = 0) (hns : noStop pre = true)
    (hstop : codonAA x y z = '*') :
    translate_dna (pre ++ x :: y :: z :: rest) = translate_dna pre ∧
    translate_dna pre = (chunks3 pre).map tripleAA ∧
    translate_dna ['A', 'T', 'G', 'T', 'A', 'A', 'G', 'G', 'G']
      = translate_dna ['A', 'T', 'G'] := by
  refine ⟨?_, translate_dna_eq_map_chunks pre h3 hns, by decide⟩
  rw [translate_dna_append_aligned pre (x :: y :: z :: rest) h3 hns]
  simp [translate_dna, hstop]

/-- Witness for C2: "ATG" followed by the stop codon TAA and "GGG". -/
theorem translate_stops_at_first_stop_witness :
    translate_dna (['A', 'T', 'G'] ++ 'T' :: 'A' :: 'A' :: ['G', 'G', 'G'])
      = translate_dna ['A', 'T', 'G'] ∧
    translate_dna ['A', 'T', 'G'] = (chunks3 ['A', 'T', 'G']).map tripleAA ∧
    translate_dna ['A', 'T', 'G', 'T', 'A', 'A', 'G', 'G', 'G']
      = translate_dna ['A', 'T', 'G'] :=
  translate_stops_at_first_stop ['A', 'T', 'G'] ['G', 'G', 'G'] 'T' 'A' 'A'
    (by decide) (by decide) (by decide)

/-- C8: a trailing partial codon (fewer than 3 symbols past the last
aligned codon) is silently discarded and contributes nothing; moreover
translate("") = "" and translate("ATG") = "M" with no trailing stop
marker. -/
theorem translate_discards_partial_codon (pre extra : List Char)
    (h3 : pre.length % 3 = 0) (hex : extra.length < 3) :
    translate_dna (pre ++ extra) = translate_dna pre ∧
    translate_dna [] = [] ∧
    translate_dna ['A', 'T', 'G'] = ['M'] :=
  ⟨translate_dna_trailing pre extra h3 hex, rfl, by decide⟩

/-- Witness for C8: "ATGCGT" with dangling "GG". -/
theorem translate_discards_partial_codon_witness :
    translate_dna (['A', 'T', 'G', 'C', 'G', 'T'] ++ ['G', 'G'])
      = translate_dna ['A', 'T', 'G', 'C', 'G', 'T'] ∧
    translate_dna [] = [] ∧
    translate_dna ['A', 'T', 'G'] = ['M'] :=
  translate_discards_partial_codon ['A', 'T', 'G', 'C', 'G', 'T'] ['G', 'G']
    (by decide) (by decide)

/-- The change count equals the number of indices below the shorter length
at which the two sequences hold different symbols. -/
theorem changes_eq_range : ∀ (o m : List Char),
    changes o m
      = ((List.range (min o.length m.length)).filter (fun i => o[i]? != m[i]?)).length
  | [], m => by simp [changes]
  | a :: o, [] => by simp [changes]
  | a :: o, b :: m => by
    have ih := changes_eq_range o m
    have hcomp : ((fun i => (a :: o)[i]? != (b :: m)[i]?) ∘ Nat.succ)
        = (fun i => o[i]? != m[i]?) := by
      funext i
      simp
    rw [changes, List.zip_cons_cons, List.filter_cons]
    rw [List.length_cons, List.length_cons, Nat.succ_min_succ, List.range_succ_eq_map,
      List.filter_cons, List.filter_map, hcomp]
    rw [changes] at ih
    by_cases hab : a = b
    · subst hab
      simp [ih]
    · have h2 : (some a != some b) = true := by
        simp [bne, hab]
      simp [bne_iff_ne.mpr hab, h2, ih]

/-- Looking up `c` after one `addCount x` step: the count of `c` grows by
one exactly when `c = x`, a missing entry counting as zero. -/
theorem lookup_addCount : ∀ (l : List (Char × Nat)) (x c : Char),
    (addCount l x).lookup c
      = if c = x then some ((l.lookup c).getD 0 + 1) else l.lookup c
  | [], x, c => by
    by_cases h : c = x
    · simp [addCount, List.lookup, h]
    · have hb : (c == x) = false := beq_eq_false_iff_ne.mpr h
      simp [addCount, List.lookup, hb, h]
  | (k, v) :: t, x, c => by
    have ih := lookup_addCount t x c
    by_cases hck : c = k
    · subst hck
      have hb : (c == c) = true := beq_self_eq_true c
      by_cases hcx : c = x
      · subst hcx
        simp [addCount, List.lookup, hb]
      · have hkx : ¬(c = x) := hcx
        simp [addCount, List.lookup, hb, hkx, fun h => hkx h]
    · have hb : (c == k) = false := beq_eq_false_iff_ne.mpr hck
      by_cases hkx : k = x
      · subst hkx
        have hcx : ¬(c = k) := hck
        simp [addCount, List.lookup, hb, hcx]
      · simp [addCount, List.lookup, hb, hkx, ih]

/-- Invariant of the Counter-building fold: after folding `m` onto `init`,
the entry of `c` is its initial count plus its occurrences in `m`. -/
theorem lookup_foldl_addCount : ∀ (m : List Char) (init : List (Char × Nat)) (c : Char),
    ((m.foldl addCount init).lookup c)
      = if c ∈ m then some ((init.lookup c).getD 0 + m.count c)
        else init.lookup c
  | [], _, c => by simp
  | x :: m, init, c => by
    have ih := lookup_foldl_addCount m (addCount init x) c
    rw [List.foldl_cons, ih, lookup_addCount]
    by_cases hcx : c = x
    · subst hcx
      by_cases hcm : c ∈ m
      · simp [hcm, List.count_cons_self]
        omega
      · simp [hcm, List.count_eq_zero.mpr hcm, List.count_cons_self]
    · have hmem : (c ∈ x :: m) ↔ c ∈ m := by
        simp [List.mem_cons, hcx]
      by_cases hcm : c ∈ m <;>
        simp [hcx, hcm, hmem, List.count_cons_of_ne hcx]

/-- C6: the comparator's change count is exactly the number of positions
below the shorter length at which the two protein sequences differ
(positions past the shorter end contribute nothing), and the Counter built
over the mutated protein maps each amino-acid code occurring in it to its
exact occurrence count, with no entry for absent codes. -/
theorem compare_spec (o m : List Char) :
    changes o m
      = ((List.range (min o.length m.length)).filter (fun i => o[i]? != m[i]?)).length ∧
    ∀ c, (aa_counts m).lookup c = if c ∈ m then some (m.count c) else none := by
  refine ⟨changes_eq_range o m, fun c => ?_⟩
  rw [aa_counts, lookup_foldl_addCount]
  simp [List.lookup]

/-- Witness for C6 on proteins "MRK" and "MK" and the code M. -/
theorem compare_spec_witness :
    changes ['M', 'R', 'K'] ['M', 'K']
      = ((List.range (min (['M', 'R', 'K'] : List Char).length
          (['M', 'K'] : List Char).length)).filter
            (fun i => (['M', 'R', 'K'] : List Char)[i]? != (['M', 'K'] : List Char)[i]?)).length ∧
    (aa_counts ['M', 'K']).lookup 'M'
      = if 'M' ∈ (['M', 'K'] : List Char) then some (List.count 'M' ['M', 'K']) else none :=
  ⟨(compare_spec ['M', 'R', 'K'] ['M', 'K']).1,
   (compare_spec ['M', 'R', 'K'] ['M', 'K']).2 'M'⟩
